import Mathlib

namespace OTP

/-- Big-endian bytes (4) of a 32-bit word. -/
def word32BE (w : Nat) : List Nat :=
  [w >>> 24 &&& 255, w >>> 16 &&& 255, w >>> 8 &&& 255, w &&& 255]

/-- Big-endian bytes (8) of a 64-bit word. -/
def word64BE (w : Nat) : List Nat :=
  [w >>> 56 &&& 255, w >>> 48 &&& 255, w >>> 40 &&& 255, w >>> 32 &&& 255,
   w >>> 24 &&& 255, w >>> 16 &&& 255, w >>> 8 &&& 255, w &&& 255]

/-- Serialization of an int64 as 8 big-endian twos-complement bytes,
modelling the Go function binary.Write with binary.BigEndian on an int64 value. -/
def int64BE (v : Int) : List Nat :=
  word64BE ((v % (2 ^ 64 : Int)).toNat)

/-- Big-endian decoding of 4 bytes into a 32-bit unsigned value,
modelling the Go function binary.BigEndian.Uint32. -/
def beUint32 (l : List Nat) : Nat :=
  (l.getD 0 0) <<< 24 ||| (l.getD 1 0) <<< 16 ||| (l.getD 2 0) <<< 8 ||| l.getD 3 0

/-- Left-rotation of a 32-bit word. -/
def rotl32 (n x : Nat) : Nat :=
  ((x <<< n) ||| (x >>> (32 - n))) % 2 ^ 32

/-- SHA-1 round function. -/
def sha1F (i b c d : Nat) : Nat :=
  if i < 20 then (b &&& c) ||| ((b ^^^ 0xffffffff) &&& d)
  else if i < 40 then b ^^^ c ^^^ d
  else if i < 60 then (b &&& c) ||| (b &&& d) ||| (c &&& d)
  else b ^^^ c ^^^ d

/-- SHA-1 round constants. -/
def sha1K (i : Nat) : Nat :=
  if i < 20 then 0x5a827999
  else if i < 40 then 0x6ed9eba1
  else if i < 60 then 0x8f1bbcdc
  else 0xca62c1d6

/-- Group a byte list into big-endian 32-bit words. -/
def toWords : List Nat → List Nat
  | b0 :: b1 :: b2 :: b3 :: rest => beUint32 [b0, b1, b2, b3] :: toWords rest
  | _ => []

/-- SHA-1 initial state. -/
def sha1Init : Nat × Nat × Nat × Nat × Nat :=
  (0x67452301, 0xefcdab89, 0x98badcfe, 0x10325476, 0xc3d2e1f0)

/-- SHA-1 compression of one 64-byte block. -/
def sha1Compress (h : Nat × Nat × Nat × Nat × Nat) (block : List Nat) :
    Nat × Nat × Nat × Nat × Nat :=
  let w := (List.range 64).foldl
    (fun w i => w ++ [rotl32 1 ((w.getD (i + 13) 0) ^^^ (w.getD (i + 8) 0) ^^^
      (w.getD (i + 2) 0) ^^^ (w.getD i 0))]) (toWords block)
  let st := (List.range 80).foldl
    (fun st i =>
      match st with
      | (a, b, c, d, e) =>
        ((rotl32 5 a + sha1F i b c d + e + sha1K i + w.getD i 0) % 2 ^ 32,
         a, rotl32 30 b, c, d)) h
  match h, st with
  | (h0, h1, h2, h3, h4), (a, b, c, d, e) =>
    ((h0 + a) % 2 ^ 32, (h1 + b) % 2 ^ 32, (h2 + c) % 2 ^ 32,
     (h3 + d) % 2 ^ 32, (h4 + e) % 2 ^ 32)

/-- SHA-1 message padding: 0x80, zeros, 8-byte big-endian bit length. -/
def sha1Pad (msg : List Nat) : List Nat :=
  msg ++ 0x80 :: (List.replicate ((64 + 55 - msg.length % 64) % 64) 0 ++
    word64BE (8 * msg.length))

/-- Split a list into chunks of n bytes; fuel-driven recursion. -/
def chunksAux (n : Nat) : Nat → List Nat → List (List Nat)
  | 0, _ => []
  | _, [] => []
  | fuel + 1, l => l.take n :: chunksAux n fuel (l.drop n)

/-- SHA-1 state after processing a whole message. -/
def sha1Words (msg : List Nat) : Nat × Nat × Nat × Nat × Nat :=
  (chunksAux 64 (sha1Pad msg).length (sha1Pad msg)).foldl sha1Compress sha1Init

/-- SHA-1 digest (20 bytes) of a byte sequence. -/
def sha1 (msg : List Nat) : List Nat :=
  match sha1Words msg with
  | (a, b, c, d, e) =>
    word32BE a ++ word32BE b ++ word32BE c ++ word32BE d ++ word32BE e

/-- A hash primitive as seen through the Go interface hash.Hash: a block size
and a digest function over byte sequences. -/
structure HashFunc where
  blockSize : Nat
  hash : List Nat → List Nat

/-- The SHA-1 primitive (crypto/sha1): 64-byte blocks. -/
def sha1Hash : HashFunc := ⟨64, sha1⟩

/-- HMAC digest, modelling crypto/hmac: keys longer than the block size are
hashed; the key is zero-padded to the block size; ipad = 0x36, opad = 0x5c. -/
def hmacDigest (hp : HashFunc) (key msg : List Nat) : List Nat :=
  let k0 := if hp.blockSize < key.length then hp.hash key else key
  let kp := k0 ++ List.replicate (hp.blockSize - k0.length) 0
  hp.hash ((kp.map fun b => b ^^^ 0x5c) ++ hp.hash ((kp.map fun b => b ^^^ 0x36) ++ msg))

/-- Common Digits configurations (otp.go). A Digits value is the decimal
modulus applied to the truncated digest. -/
def SixDigits : Nat := 1000000

def SevenDigits : Nat := SixDigits * 10

def EightDigits : Nat := SevenDigits * 10

def DefaultStepSizeSeconds : Int := 30

/-- HOTPCode (otp.go): HMAC the 8-byte big-endian counter, dynamic truncation,
reduce modulo digits. Go runtime panics (empty digest, digest shorter than
offset+4, modulo by zero) are modelled as none. -/
def HOTPCode (hp : HashFunc) (key : List Nat) (digits : Nat) (value : Int) :
    Option Int :=
  let sum := hmacDigest hp key (int64BE value)
  match sum.getLast? with
  | none => none
  | some lastByte =>
    let offset := lastByte &&& 0x0f
    if offset + 4 ≤ sum.length then
      let snip := beUint32 ((sum.drop offset).take 4) &&& 0x7fffffff
      if digits = 0 then none else some ((snip % digits : Nat) : Int)
    else none

/-- Instants are modelled as integer nanoseconds since the Unix epoch;
Unix() floors to whole seconds, as the Go type time.Time does. -/
def unixSeconds (t : Int) : Int := Int.fdiv t 1000000000

/-- timeSteps (otp.go): t.Unix() / stepSize with the truncating (toward-zero)
int64 division of Go; division by zero (a Go panic) is modelled as none. -/
def timeSteps (stepSize : Int) (t : Int) : Option Int :=
  if stepSize = 0 then none else some (Int.tdiv (unixSeconds t) stepSize)

/-- TOTPCode (otp.go): HOTPCode at the time-step counter. -/
def TOTPCode (hp : HashFunc) (key : List Nat) (digits : Nat)
    (stepSizeSeconds : Int) (t : Int) : Option Int :=
  match timeSteps stepSizeSeconds t with
  | none => none
  | some steps => HOTPCode hp key digits steps

/-- TOTPValidator (otp.go). Tolerances are durations in nanoseconds; a nil
HashProvider is none. -/
structure TOTPValidator where
  Key : List Nat
  StepSizeSeconds : Int
  PastTolerance : Int
  FutureTolerance : Int
  LastT : Int
  HashProvider : Option HashFunc
  Digits : Nat

/-- The hash provider ValidateTOTPCode actually uses: SHA-1 when unset. -/
def effHashProvider (tc : TOTPValidator) : HashFunc :=
  tc.HashProvider.getD sha1Hash

/-- The digits value ValidateTOTPCode actually uses: SixDigits when unset. -/
def effDigits (tc : TOTPValidator) : Nat :=
  if tc.Digits = 0 then SixDigits else tc.Digits

/-- The step size ValidateTOTPCode actually uses: 30 seconds when unset. -/
def effStepSize (tc : TOTPValidator) : Int :=
  if tc.StepSizeSeconds = 0 then DefaultStepSizeSeconds else tc.StepSizeSeconds

/-- The search loop of ValidateTOTPCode: counters from t up, fuel many,
skipping counters at or below lastT, stopping at the first match.
some (some t) = matched at t; some none = loop finished without a match;
none = a generation panic. -/
def validateLoop (gen : Int → Option Int) (lastT : Int) (code : Int) :
    Int → Nat → Option (Option Int)
  | _, 0 => some none
  | t, fuel + 1 =>
    if t ≤ lastT then validateLoop gen lastT code (t + 1) fuel
    else
      match gen t with
      | none => none
      | some c => if c = code then some (some t) else validateLoop gen lastT code (t + 1) fuel

/-- ValidateTOTPCode (otp.go): defaults unset fields, derives the window
from the tolerances, and searches it in increasing counter order. -/
def ValidateTOTPCode (tc : TOTPValidator) (now : Int) (code : Int) :
    Option (Bool × Int) :=
  let hp := effHashProvider tc
  let digits := effDigits tc
  let stepSize := effStepSize tc
  match timeSteps stepSize (now - tc.PastTolerance),
        timeSteps stepSize (now + tc.FutureTolerance) with
  | some tMin, some tMax =>
    match validateLoop (fun t => HOTPCode hp tc.Key digits t) tc.LastT code
        tMin (tMax + 1 - tMin).toNat with
    | none => none
    | some (some t) => some (true, t)
    | some none =>
      match timeSteps stepSize now with
      | none => none
      | some cur => some (false, cur)
  | _, _ => none

/-- ValidateTOTPCode rewritten over the validator state monad, mirroring the
Go method on *TOTPValidator statement by statement: every field access is a
read of the threaded state, and the method performs no write. -/
def ValidateTOTPCodeSt (now : Int) (code : Int) :
    StateM TOTPValidator (Option (Bool × Int)) := do
  let hp := (← get).HashProvider.getD sha1Hash
  let digits0 := (← get).Digits
  let digits := if digits0 = 0 then SixDigits else digits0
  let stepSize0 := (← get).StepSizeSeconds
  let stepSize := if stepSize0 = 0 then DefaultStepSizeSeconds else stepSize0
  let key := (← get).Key
  let lastT := (← get).LastT
  match timeSteps stepSize (now - (← get).PastTolerance),
        timeSteps stepSize (now + (← get).FutureTolerance) with
  | some tMin, some tMax =>
    match validateLoop (fun t => HOTPCode hp key digits t) lastT
        code tMin (tMax + 1 - tMin).toNat with
    | none => pure none
    | some (some t) => pure (some (true, t))
    | some none =>
      match timeSteps stepSize now with
      | none => pure none
      | some cur => pure (some (false, cur))
  | _, _ => pure none

/-- The property that a hash primitive always produces at least 20 digest
bytes, as the spec requires of supported primitives. -/
def DigestLen20 (hp : HashFunc) : Prop :=
  ∀ m, 20 ≤ (hp.hash m).length

/-- The property that a hash primitive produces byte values (< 256). -/
def DigestBytes (hp : HashFunc) : Prop :=
  ∀ m, ∀ b ∈ hp.hash m, b < 256

/-- Modelled from RFC 4226 as restated by the spec: the counter serialized
as an 8-byte big-endian twos-complement integer, written digit by digit in
base 256. -/
def specSerialize (counter : Int) : List Nat :=
  (List.range 8).map fun i => (counter % (2 ^ 64 : Int)).toNat / 256 ^ (7 - i) % 256

/-- Modelled from the generation algorithm of the spec (section 4.1), word for
word: HMAC the serialized counter, take the low nibble of the last digest
byte as offset, read digest[offset..offset+4] as a big-endian base-256
number, clear the sign bit by reducing modulo 2^31, and reduce modulo the
digit count. Stated over total list operations for comparison with the
source-derived HOTPCode. -/
def specGenerateCode (hp : HashFunc) (secret : List Nat) (digitCount : Nat)
    (counter : Int) : Nat :=
  let digest := hmacDigest hp secret (specSerialize counter)
  let offset := digest.getLastD 0 % 16
  let window := (digest.drop offset).take 4
  (window.foldl (fun acc b => 256 * acc + b) 0 % 2 ^ 31) % digitCount

/-- The lower window bound ValidateTOTPCode searches from:
TimeStep(step, now - PastTolerance) with the effective step size. -/
def windowMin (tc : TOTPValidator) (now : Int) : Int :=
  Int.tdiv (unixSeconds (now - tc.PastTolerance)) (effStepSize tc)

/-- The upper window bound ValidateTOTPCode searches to:
TimeStep(step, now + FutureTolerance) with the effective step size. -/
def windowMax (tc : TOTPValidator) (now : Int) : Int :=
  Int.tdiv (unixSeconds (now + tc.FutureTolerance)) (effStepSize tc)

/-- The counter of the current instant: TimeStep(step, now) with the
effective step size; returned by ValidateTOTPCode on a failed search. -/
def currentStep (tc : TOTPValidator) (now : Int) : Int :=
  Int.tdiv (unixSeconds now) (effStepSize tc)

/-- The code generator ValidateTOTPCode consults at counter t. -/
def genOf (tc : TOTPValidator) (t : Int) : Option Int :=
  HOTPCode (effHashProvider tc) tc.Key (effDigits tc) t

/-- The caller-side floor update: the validator with LastT advanced to t,
all other fields unchanged. -/
def advanceFloor (tc : TOTPValidator) (t : Int) : TOTPValidator :=
  ⟨tc.Key, tc.StepSizeSeconds, tc.PastTolerance, tc.FutureTolerance, t,
   tc.HashProvider, tc.Digits⟩

/-- The validator with the hash provider set, all other fields unchanged. -/
def setHashProvider (tc : TOTPValidator) (hp : HashFunc) : TOTPValidator :=
  ⟨tc.Key, tc.StepSizeSeconds, tc.PastTolerance, tc.FutureTolerance, tc.LastT,
   some hp, tc.Digits⟩

/-- The validator with the digit count set, all other fields unchanged. -/
def setDigits (tc : TOTPValidator) (d : Nat) : TOTPValidator :=
  ⟨tc.Key, tc.StepSizeSeconds, tc.PastTolerance, tc.FutureTolerance, tc.LastT,
   tc.HashProvider, d⟩

/-- The validator with the step size set, all other fields unchanged. -/
def setStepSize (tc : TOTPValidator) (s : Int) : TOTPValidator :=
  ⟨tc.Key, s, tc.PastTolerance, tc.FutureTolerance, tc.LastT,
   tc.HashProvider, tc.Digits⟩

/-- The RFC 4226 / RFC 6238 reference secret "12345678901234567890". -/
def rfcKey : List Nat :=
  [0x31, 0x32, 0x33, 0x34, 0x35, 0x36, 0x37, 0x38, 0x39, 0x30,
   0x31, 0x32, 0x33, 0x34, 0x35, 0x36, 0x37, 0x38, 0x39, 0x30]

/-- A validator over the reference secret with every optional field unset
and eight-digit codes. -/
def rfcValidator : TOTPValidator :=
  ⟨rfcKey, 0, 0, 0, 0, none, EightDigits⟩

/-- A validator with digit modulus 1 (every code is 0) and a one-step
future tolerance: two counters of its window generate the same code. -/
def cexValidator : TOTPValidator :=
  ⟨[1], 0, 0, 30000000000, 0, none, 1⟩

/-- The dynamic-truncation value HOTPCode extracts from a digest before the
modulus: 4 bytes at the low-nibble offset, sign bit cleared. -/
def dynamicTruncation (sum : List Nat) : Nat :=
  beUint32 ((sum.drop (sum.getLastD 0 &&& 0x0f)).take 4) &&& 0x7fffffff

theorem and255_lt (x : Nat) : x &&& 255 < 256 := by
  have h := @Nat.and_le_right x 255
  omega

theorem word32BE_bytes (w : Nat) : ∀ b ∈ word32BE w, b < 256 := by
  intro b hb
  simp [word32BE] at hb
  rcases hb with h | h | h | h <;> exact h ▸ and255_lt _

theorem sha1_length (m : List Nat) : (sha1 m).length = 20 := by
  unfold sha1
  rcases h : sha1Words m with ⟨a, b, c, d, e⟩
  simp [word32BE]

theorem sha1_bytes (m : List Nat) : ∀ b ∈ sha1 m, b < 256 := by
  unfold sha1
  rcases h : sha1Words m with ⟨a, b, c, d, e⟩
  intro x hx
  simp only [word32BE, List.cons_append, List.nil_append, List.mem_cons,
    List.not_mem_nil, or_false] at hx
  rcases hx with h1 | h1 | h1 | h1 | h1 | h1 | h1 | h1 | h1 | h1 | h1 | h1 |
    h1 | h1 | h1 | h1 | h1 | h1 | h1 | h1 <;> exact h1 ▸ and255_lt _

theorem sha1Hash_len20 : DigestLen20 sha1Hash :=
  fun m => le_of_eq (sha1_length m).symm

theorem sha1Hash_bytes : DigestBytes sha1Hash :=
  fun m => sha1_bytes m

theorem hmacDigest_len {hp : HashFunc} (h20 : DigestLen20 hp)
    (key msg : List Nat) : 20 ≤ (hmacDigest hp key msg).length := by
  unfold hmacDigest
  exact h20 _

theorem hmacDigest_bytes {hp : HashFunc} (hb : DigestBytes hp)
    (key msg : List Nat) : ∀ b ∈ hmacDigest hp key msg, b < 256 := by
  unfold hmacDigest
  exact hb _

theorem HOTPCode_eq_some {hp : HashFunc} (h20 : DigestLen20 hp)
    (key : List Nat) {digits : Nat} (hd : digits ≠ 0) (value : Int) :
    HOTPCode hp key digits value =
      some (((dynamicTruncation (hmacDigest hp key (int64BE value)) % digits : Nat) : Int)) := by
  simp only [HOTPCode, dynamicTruncation]
  have hlen : 20 ≤ (hmacDigest hp key (int64BE value)).length :=
    hmacDigest_len h20 key _
  set sum := hmacDigest hp key (int64BE value) with hsum
  have hne : sum ≠ [] := by
    intro h
    rw [h] at hlen
    simp at hlen
  obtain ⟨lb, hlb⟩ := Option.isSome_iff_exists.mp (List.getLast?_isSome.mpr hne)
  have hD : sum.getLastD 0 = lb := by
    rw [List.getLastD_eq_getLast?, hlb]
    rfl
  have hoff : lb &&& 15 ≤ 15 := @Nat.and_le_right lb 15
  simp only [hlb, hD]
  rw [if_pos (by omega : (lb &&& 15) + 4 ≤ sum.length), if_neg hd]

theorem HOTPCode_isSome {hp : HashFunc} (h20 : DigestLen20 hp)
    (key : List Nat) {digits : Nat} (hd : digits ≠ 0) (value : Int) :
    (HOTPCode hp key digits value).isSome := by
  rw [HOTPCode_eq_some h20 key hd value]
  rfl

theorem or_as_add {i a b : Nat} (h : b < 2 ^ i) :
    a * 2 ^ i ||| b = a * 2 ^ i + b := by
  rw [Nat.mul_comm]
  exact (Nat.mul_add_lt_is_or h a).symm

theorem beUint32_eq {a b c d : Nat} (hb : b < 256) (hc : c < 256)
    (hd : d < 256) :
    beUint32 [a, b, c, d] = ((a * 256 + b) * 256 + c) * 256 + d := by
  simp only [beUint32, List.getD_cons_zero, List.getD_cons_succ]
  rw [Nat.shiftLeft_eq, Nat.shiftLeft_eq, Nat.shiftLeft_eq,
    or_as_add (show b * 2 ^ 16 < 2 ^ 24 by omega),
    show a * 2 ^ 24 + b * 2 ^ 16 = (a * 2 ^ 8 + b) * 2 ^ 16 by ring,
    or_as_add (show c * 2 ^ 8 < 2 ^ 16 by omega),
    show (a * 2 ^ 8 + b) * 2 ^ 16 + c * 2 ^ 8 =
      ((a * 2 ^ 8 + b) * 2 ^ 8 + c) * 2 ^ 8 by ring,
    or_as_add (show d < 2 ^ 8 by omega)]
  ring

theorem foldl_base256 (a b c d : Nat) :
    [a, b, c, d].foldl (fun acc x => 256 * acc + x) 0 =
      ((a * 256 + b) * 256 + c) * 256 + d := by
  simp only [List.foldl]
  ring

theorem and15_eq_mod (x : Nat) : x &&& 15 = x % 16 := by
  have h := Nat.and_pow_two_sub_one_eq_mod x 4
  norm_num at h
  exact h

theorem and255_eq_mod (x : Nat) : x &&& 255 = x % 256 := by
  have h := Nat.and_pow_two_sub_one_eq_mod x 8
  norm_num at h
  exact h

theorem and31bits_eq_mod (x : Nat) : x &&& 2147483647 = x % 2 ^ 31 := by
  have h := Nat.and_pow_two_sub_one_eq_mod x 31
  norm_num at h ⊢
  exact h

theorem int64BE_eq_specSerialize (v : Int) : int64BE v = specSerialize v := by
  simp only [int64BE, specSerialize, word64BE, List.range_succ,
    List.map_append, List.map_cons, List.map_nil, List.nil_append,
    List.cons_append]
  simp only [Nat.shiftRight_eq_div_pow, and255_eq_mod]
  norm_num

theorem exists_four {l : List Nat} (h : l.length = 4) :
    ∃ a b c d, l = [a, b, c, d] := by
  rcases l with _ | ⟨a, l⟩
  · simp at h
  rcases l with _ | ⟨b, l⟩
  · simp at h
  rcases l with _ | ⟨c, l⟩
  · simp at h
  rcases l with _ | ⟨d, l⟩
  · simp at h
  rcases l with _ | ⟨e, l⟩
  · exact ⟨a, b, c, d, rfl⟩
  · simp at h

theorem take_drop_mem {l : List Nat} {off x : Nat}
    (hx : x ∈ (l.drop off).take 4) : x ∈ l :=
  List.drop_subset off l (List.take_subset 4 _ hx)

/-- Claim C1: HOTPCode follows the RFC 4226 algorithm exactly: for every secret,
hash primitive producing byte digests of length at least 20, positive digit
count and 64-bit counter (negative included), it returns the
serialize / HMAC / dynamic-truncate / mask / mod composition. -/
theorem hotp_follows_rfc4226 {hp : HashFunc} (h20 : DigestLen20 hp)
    (hbytes : DigestBytes hp) (key : List Nat) {digits : Nat}
    (hd : 0 < digits) (value : Int) :
    HOTPCode hp key digits value =
      some ((specGenerateCode hp key digits value : Nat) : Int) := by
  rw [HOTPCode_eq_some h20 key (by omega) value]
  have main : dynamicTruncation (hmacDigest hp key (int64BE value)) % digits =
      specGenerateCode hp key digits value := by
    simp only [specGenerateCode, dynamicTruncation]
    rw [← int64BE_eq_specSerialize]
    set sum := hmacDigest hp key (int64BE value) with hsum
    have hlen : 20 ≤ sum.length := hmacDigest_len h20 key _
    have hbs : ∀ b ∈ sum, b < 256 := hmacDigest_bytes hbytes key _
    rw [and15_eq_mod]
    set off := sum.getLastD 0 % 16 with hoffdef
    have hofflt : off < 16 := Nat.mod_lt _ (by omega)
    have hlen4 : ((sum.drop off).take 4).length = 4 := by
      simp only [List.length_take, List.length_drop]
      omega
    obtain ⟨a, b, c, d, hw⟩ := exists_four hlen4
    have hbin : b < 256 := hbs b (take_drop_mem (by rw [hw]; simp))
    have hcin : c < 256 := hbs c (take_drop_mem (by rw [hw]; simp))
    have hdin : d < 256 := hbs d (take_drop_mem (by rw [hw]; simp))
    rw [hw, beUint32_eq hbin hcin hdin, and31bits_eq_mod, foldl_base256]
  rw [main]

/-- Claim C5: for every positive digit count, secret and counter, and every hash
primitive with digests of length at least 20, HOTPCode succeeds and its
result lies in [0, digits - 1]. -/
theorem hotp_range {hp : HashFunc} (h20 : DigestLen20 hp) (key : List Nat)
    {digits : Nat} (hd : 0 < digits) (value : Int) :
    ∃ r, HOTPCode hp key digits value = some r ∧ 0 ≤ r ∧ r < (digits : Int) := by
  refine ⟨_, HOTPCode_eq_some h20 key (by omega) value, Int.natCast_nonneg _, ?_⟩
  exact_mod_cast Nat.mod_lt _ hd

theorem effStepSize_ne_zero (tc : TOTPValidator) : effStepSize tc ≠ 0 := by
  unfold effStepSize DefaultStepSizeSeconds
  split
  · omega
  · assumption

theorem effDigits_ne_zero (tc : TOTPValidator) : effDigits tc ≠ 0 := by
  unfold effDigits SixDigits
  split
  · omega
  · assumption

theorem timeSteps_effStepSize (tc : TOTPValidator) (x : Int) :
    timeSteps (effStepSize tc) x =
      some (Int.tdiv (unixSeconds x) (effStepSize tc)) := by
  unfold timeSteps
  rw [if_neg (effStepSize_ne_zero tc)]

theorem genOf_isSome {tc : TOTPValidator}
    (h20 : DigestLen20 (effHashProvider tc)) (u : Int) :
    (genOf tc u).isSome :=
  HOTPCode_isSome h20 tc.Key (effDigits_ne_zero tc) u

theorem ValidateTOTPCode_eq (tc : TOTPValidator) (now code : Int) :
    ValidateTOTPCode tc now code =
      match validateLoop (genOf tc) tc.LastT code (windowMin tc now)
          (windowMax tc now + 1 - windowMin tc now).toNat with
      | none => none
      | some (some t) => some (true, t)
      | some none => some (false, currentStep tc now) := by
  unfold ValidateTOTPCode
  simp only [timeSteps_effStepSize]
  rfl

theorem validateLoop_floor {gen : Int → Option Int} {lastT code : Int} :
    ∀ (fuel : Nat) (t0 t : Int),
      validateLoop gen lastT code t0 fuel = some (some t) → lastT < t := by
  intro fuel
  induction fuel with
  | zero =>
    intro t0 t h
    simp [validateLoop] at h
  | succ fuel ih =>
    intro t0 t h
    simp only [validateLoop] at h
    split at h
    · exact ih _ _ h
    · rename_i hgt
      cases hg : gen t0 with
      | none =>
        simp [hg] at h
      | some c =>
        simp only [hg] at h
        by_cases hc : c = code
        · rw [if_pos hc] at h
          simp only [Option.some.injEq] at h
          omega
        · rw [if_neg hc] at h
          exact ih _ _ h

theorem validateLoop_isSome {gen : Int → Option Int} {lastT code : Int}
    (hgen : ∀ u, (gen u).isSome) :
    ∀ (fuel : Nat) (t0 : Int), (validateLoop gen lastT code t0 fuel).isSome := by
  intro fuel
  induction fuel with
  | zero =>
    intro t0
    rfl
  | succ fuel ih =>
    intro t0
    simp only [validateLoop]
    split
    · exact ih _
    · obtain ⟨c, hc⟩ := Option.isSome_iff_exists.mp (hgen t0)
      simp only [hc]
      split
      · rfl
      · exact ih _

theorem validateLoop_true_iff {gen : Int → Option Int} {lastT code : Int}
    (hgen : ∀ u, (gen u).isSome) :
    ∀ (fuel : Nat) (t0 t : Int),
      (validateLoop gen lastT code t0 fuel = some (some t) ↔
        t0 ≤ t ∧ t < t0 + (fuel : Int) ∧ lastT < t ∧ gen t = some code ∧
          ∀ u, t0 ≤ u → u < t → lastT < u → gen u ≠ some code) := by
  intro fuel
  induction fuel with
  | zero =>
    intro t0 t
    constructor
    · intro h
      simp [validateLoop] at h
    · rintro ⟨h1, h2, -⟩
      exfalso
      omega
  | succ fuel ih =>
    intro t0 t
    simp only [validateLoop]
    by_cases hle : t0 ≤ lastT
    · rw [if_pos hle, ih]
      push_cast
      constructor
      · rintro ⟨h1, h2, h3, h4, h5⟩
        exact ⟨by omega, by omega, h3, h4,
          fun u hu1 hu2 hu3 => h5 u (by omega) hu2 hu3⟩
      · rintro ⟨h1, h2, h3, h4, h5⟩
        exact ⟨by omega, by omega, h3, h4,
          fun u hu1 hu2 hu3 => h5 u (by omega) hu2 hu3⟩
    · rw [if_neg hle]
      obtain ⟨c, hc⟩ := Option.isSome_iff_exists.mp (hgen t0)
      simp only [hc]
      by_cases hcc : c = code
      · subst hcc
        rw [if_pos rfl]
        constructor
        · intro h
          simp only [Option.some.injEq] at h
          subst h
          refine ⟨le_refl _, by omega, by omega, hc, ?_⟩
          intro u hu1 hu2 hu3 hbad
          omega
        · rintro ⟨h1, h2, h3, h4, h5⟩
          rcases eq_or_lt_of_le h1 with heq | hlt
          · rw [heq]
          · exact absurd hc (h5 t0 (le_refl _) hlt (by omega))
      · rw [if_neg hcc, ih]
        push_cast
        constructor
        · rintro ⟨h1, h2, h3, h4, h5⟩
          refine ⟨by omega, by omega, h3, h4, fun u hu1 hu2 hu3 => ?_⟩
          rcases eq_or_lt_of_le hu1 with heq | hlt
          · intro hbad
            rw [← heq, hc] at hbad
            exact hcc (Option.some.inj hbad)
          · exact h5 u (by omega) hu2 hu3
        · rintro ⟨h1, h2, h3, h4, h5⟩
          have hne : t ≠ t0 := by
            intro heq
            rw [heq, hc] at h4
            exact hcc (Option.some.inj h4)
          exact ⟨by omega, by omega, h3, h4,
            fun u hu1 hu2 hu3 => h5 u (by omega) hu2 hu3⟩

theorem validateLoop_none_iff {gen : Int → Option Int} {lastT code : Int}
    (hgen : ∀ u, (gen u).isSome) :
    ∀ (fuel : Nat) (t0 : Int),
      (validateLoop gen lastT code t0 fuel = some none ↔
        ∀ u, t0 ≤ u → u < t0 + (fuel : Int) → lastT < u → gen u ≠ some code) := by
  intro fuel
  induction fuel with
  | zero =>
    intro t0
    constructor
    · intro _ u hu1 hu2 hu3 hbad
      omega
    · intro _
      rfl
  | succ fuel ih =>
    intro t0
    simp only [validateLoop]
    by_cases hle : t0 ≤ lastT
    · rw [if_pos hle, ih]
      push_cast
      constructor
      · intro h u hu1 hu2 hu3
        exact h u (by omega) (by omega) hu3
      · intro h u hu1 hu2 hu3
        exact h u (by omega) (by omega) hu3
    · rw [if_neg hle]
      obtain ⟨c, hc⟩ := Option.isSome_iff_exists.mp (hgen t0)
      simp only [hc]
      by_cases hcc : c = code
      · rw [if_pos hcc]
        constructor
        · intro h
          simp at h
        · intro h
          exfalso
          exact h t0 (le_refl _) (by omega) (by omega) (hcc ▸ hc)
      · rw [if_neg hcc, ih]
        push_cast
        constructor
        · intro h u hu1 hu2 hu3
          rcases eq_or_lt_of_le hu1 with heq | hlt
          · intro hbad
            rw [← heq, hc] at hbad
            exact hcc (Option.some.inj hbad)
          · exact h u (by omega) (by omega) hu3
        · intro h u hu1 hu2 hu3
          exact h u (by omega) (by omega) hu3

theorem validate_floorLt (tc : TOTPValidator) (now code t : Int)
    (h : ValidateTOTPCode tc now code = some (true, t)) : tc.LastT < t := by
  rw [ValidateTOTPCode_eq] at h
  cases hv : validateLoop (genOf tc) tc.LastT code (windowMin tc now)
      (windowMax tc now + 1 - windowMin tc now).toNat with
  | none => simp [hv] at h
  | some o =>
    cases o with
    | none => simp [hv] at h
    | some t0 =>
      simp only [hv, Option.some.injEq, Prod.mk.injEq] at h
      obtain ⟨-, ht⟩ := h
      exact ht ▸ validateLoop_floor _ _ _ hv

theorem validate_falseOf (tc : TOTPValidator) (now code : Int)
    (h20 : DigestLen20 (effHashProvider tc))
    (hnm : ∀ u, windowMin tc now ≤ u → u ≤ windowMax tc now → tc.LastT < u →
      genOf tc u ≠ some code) :
    ValidateTOTPCode tc now code = some (false, currentStep tc now) := by
  have hgen := genOf_isSome h20
  rw [ValidateTOTPCode_eq]
  have hnone : validateLoop (genOf tc) tc.LastT code (windowMin tc now)
      (windowMax tc now + 1 - windowMin tc now).toNat = some none :=
    (validateLoop_none_iff hgen _ _).mpr
      (fun u hu1 hu2 hu3 => hnm u hu1 (by omega) hu3)
  simp only [hnone]

/-- Claim C2: ValidateTOTPCode never returns matched = true together with a
resolved counter at or below the LastT floor, for every validator state,
time and candidate code — even when the code generated at such a counter
equals the candidate. -/
theorem validate_never_accepts_floor (tc : TOTPValidator) (now code t : Int)
    (h : ValidateTOTPCode tc now code = some (true, t)) : tc.LastT < t :=
  validate_floorLt tc now code t h

/-- Claim C3: ValidateTOTPCode returns (true, t) exactly when t is the smallest
counter of the inclusive window [windowMin, windowMax] that lies strictly
above the LastT floor and whose generated code equals the candidate;
counters are tried in increasing order and the search stops at the first
match. Stated for any validator whose effective hash primitive produces
digests of length at least 20. -/
theorem validate_true_iff (tc : TOTPValidator) (now code t : Int)
    (h20 : DigestLen20 (effHashProvider tc)) :
    ValidateTOTPCode tc now code = some (true, t) ↔
      (windowMin tc now ≤ t ∧ t ≤ windowMax tc now ∧ tc.LastT < t ∧
        genOf tc t = some code ∧
        ∀ u, windowMin tc now ≤ u → u < t → tc.LastT < u →
          genOf tc u ≠ some code) := by
  have hgen := genOf_isSome h20
  rw [ValidateTOTPCode_eq]
  have hloop := @validateLoop_true_iff (genOf tc) tc.LastT code hgen
    ((windowMax tc now + 1 - windowMin tc now).toNat) (windowMin tc now) t
  cases hv : validateLoop (genOf tc) tc.LastT code (windowMin tc now)
      (windowMax tc now + 1 - windowMin tc now).toNat with
  | none =>
    have hs := @validateLoop_isSome (genOf tc) tc.LastT code hgen
      ((windowMax tc now + 1 - windowMin tc now).toNat) (windowMin tc now)
    rw [hv] at hs
    simp at hs
  | some o =>
    rw [hv] at hloop
    cases o with
    | none =>
      constructor
      · intro hbad
        simp at hbad
      · rintro ⟨h1, h2, h3, h4, h5⟩
        exfalso
        have hcontra : (some none : Option (Option Int)) = some (some t) :=
          hloop.mpr ⟨h1, by omega, h3, h4, h5⟩
        simp at hcontra
    | some t0 =>
      constructor
      · intro hsome
        simp only [Option.some.injEq, Prod.mk.injEq] at hsome
        obtain ⟨-, ht⟩ := hsome
        subst ht
        obtain ⟨h1, h2, h3, h4, h5⟩ := hloop.mp rfl
        exact ⟨h1, by omega, h3, h4, h5⟩
      · rintro ⟨h1, h2, h3, h4, h5⟩
        have heq := hloop.mpr ⟨h1, by omega, h3, h4, h5⟩
        simp only [Option.some.injEq] at heq
        show some (true, t0) = some (true, t)
        rw [heq]

/-- Claim C6: whenever no counter of the searched window strictly above the LastT
floor generates the candidate code — in particular when the window is empty
(windowMax < windowMin) or lies entirely at or below the floor —
ValidateTOTPCode returns matched = false paired with the current counter. -/
theorem validate_no_match_false (tc : TOTPValidator) (now code : Int)
    (h20 : DigestLen20 (effHashProvider tc))
    (hnm : ∀ u, windowMin tc now ≤ u → u ≤ windowMax tc now → tc.LastT < u →
      genOf tc u ≠ some code) :
    ValidateTOTPCode tc now code = some (false, currentStep tc now) :=
  validate_falseOf tc now code h20 hnm

set_option maxRecDepth 100000 in
/-- Counterexample for claim C4: with digit modulus 1 every counter generates code 0,
so after a first validation matches at counter 2 and the floor is advanced
to 2, a second validation of the same code at the same instant matches
again at counter 3 — it does not return matched = false. -/
theorem validate_reuse_counterexample :
    ValidateTOTPCode cexValidator 60000000000 0 = some (true, 2) ∧
      ValidateTOTPCode (advanceFloor cexValidator 2) 60000000000 0 =
        some (true, 3) :=
  ⟨by decide, by decide⟩

/-- Claim C4, amended: if a first call returns (true, t), a second call at the
same time with the same code and the floor advanced to t never accepts a
counter at or below t; it returns matched = false whenever no counter of
the window strictly beyond t generates the candidate code (the original
unconditional matched = false fails when a later in-window counter
collides on the same code). -/
theorem validate_no_reuse_amended (tc : TOTPValidator) (now code t : Int)
    (h20 : DigestLen20 (effHashProvider tc))
    (_hfirst : ValidateTOTPCode tc now code = some (true, t)) :
    (∀ u, ValidateTOTPCode (advanceFloor tc t) now code = some (true, u) →
      t < u) ∧
    ((∀ u, t < u → u ≤ windowMax tc now → genOf tc u ≠ some code) →
      ValidateTOTPCode (advanceFloor tc t) now code =
        some (false, currentStep tc now)) := by
  constructor
  · intro u hu
    exact validate_floorLt (advanceFloor tc t) now code u hu
  · intro hno
    exact validate_falseOf (advanceFloor tc t) now code h20
      (fun u _ hu2 hu3 => hno u hu3 hu2)

theorem validate_congr (tc1 tc2 : TOTPValidator) (hK : tc1.Key = tc2.Key)
    (hP : tc1.PastTolerance = tc2.PastTolerance)
    (hF : tc1.FutureTolerance = tc2.FutureTolerance)
    (hL : tc1.LastT = tc2.LastT)
    (hH : effHashProvider tc1 = effHashProvider tc2)
    (hD : effDigits tc1 = effDigits tc2)
    (hS : effStepSize tc1 = effStepSize tc2) (now code : Int) :
    ValidateTOTPCode tc1 now code = ValidateTOTPCode tc2 now code := by
  unfold ValidateTOTPCode
  rw [hK, hP, hF, hL, hH, hD, hS]

/-- Claim C7: a validator with an unset hash provider, digit count or step size
behaves exactly like one configured with SHA-1, SixDigits (modulus
1,000,000) or 30 seconds respectively, each unset field defaulted
independently. -/
theorem validate_defaults (tc : TOTPValidator) (now code : Int) :
    (tc.HashProvider = none →
      ValidateTOTPCode tc now code =
        ValidateTOTPCode (setHashProvider tc sha1Hash) now code) ∧
    (tc.Digits = 0 →
      ValidateTOTPCode tc now code =
        ValidateTOTPCode (setDigits tc SixDigits) now code) ∧
    (tc.StepSizeSeconds = 0 →
      ValidateTOTPCode tc now code =
        ValidateTOTPCode (setStepSize tc DefaultStepSizeSeconds) now code) := by
  refine ⟨fun h => ?_, fun h => ?_, fun h => ?_⟩
  · exact validate_congr tc (setHashProvider tc sha1Hash) rfl rfl rfl rfl
      (by simp [effHashProvider, setHashProvider, h]) rfl rfl now code
  · exact validate_congr tc (setDigits tc SixDigits) rfl rfl rfl rfl rfl
      (by simp [effDigits, setDigits, h, SixDigits]) rfl now code
  · exact validate_congr tc (setStepSize tc DefaultStepSizeSeconds) rfl rfl rfl rfl rfl rfl
      (by simp [effStepSize, setStepSize, h, DefaultStepSizeSeconds]) now code

/-- Claim C8: for every positive step size and every instant, pre-epoch instants
included, timeSteps succeeds (no crash) and equals the Unix-seconds value
of the instant divided by the step size with integer division truncating
toward zero: the sign of the numerator times the quotient of the absolute
values. -/
theorem timeSteps_truncates_toward_zero (s t : Int) (hs : 0 < s) :
    timeSteps s t =
      some ((unixSeconds t).sign *
        (((unixSeconds t).natAbs / s.natAbs : Nat) : Int)) := by
  unfold timeSteps
  rw [if_neg (by omega)]
  congr 1
  generalize unixSeconds t = a
  obtain ⟨k, rfl⟩ : ∃ k : Nat, s = (k : Int) :=
    ⟨s.toNat, (Int.toNat_of_nonneg (le_of_lt hs)).symm⟩
  rcases a with n | n
  · cases n with
    | zero => simp
    | succ n =>
      show Int.ofNat ((n + 1) / k) = 1 * Int.ofNat ((n + 1) / k)
      rw [one_mul]
  · show -Int.ofNat ((n + 1) / k) = -1 * Int.ofNat ((n + 1) / k)
    rw [neg_one_mul]

/-- Claim C9: ValidateTOTPCode never mutates the validator state: run over
the state monad threading the TOTPValidator record, the method leaves every
field unchanged — the returned state is the input state — and its result is
the pure function of the explicit state, the supplied time and the code;
the replay floor advances only if the caller writes the returned counter
back into LastT. -/
theorem validate_pure_state (tc : TOTPValidator) (now code : Int) :
    (ValidateTOTPCodeSt now code).run tc = (ValidateTOTPCode tc now code, tc) := by
  unfold ValidateTOTPCodeSt ValidateTOTPCode
  simp only [StateT.run, bind, StateT.bind, get, getThe, MonadStateOf.get,
    StateT.get, pure, StateT.pure, effHashProvider, effDigits, effStepSize]
  cases h1 : timeSteps (if tc.StepSizeSeconds = 0 then DefaultStepSizeSeconds
      else tc.StepSizeSeconds) (now - tc.PastTolerance) with
  | none => rfl
  | some tMin =>
    cases h2 : timeSteps (if tc.StepSizeSeconds = 0 then DefaultStepSizeSeconds
        else tc.StepSizeSeconds) (now + tc.FutureTolerance) with
    | none => rfl
    | some tMax =>
      cases h3 : validateLoop (fun t => HOTPCode (tc.HashProvider.getD sha1Hash)
          tc.Key (if tc.Digits = 0 then SixDigits else tc.Digits) t) tc.LastT
          code tMin (tMax + 1 - tMin).toNat with
      | none => simp [h3, StateT.pure]
      | some o =>
        cases o with
        | some t => simp [h3, StateT.pure]
        | none =>
          cases h4 : timeSteps (if tc.StepSizeSeconds = 0 then
              DefaultStepSizeSeconds else tc.StepSizeSeconds) now with
          | none => simp [h3, h4, StateT.pure]
          | some cur => simp [h3, h4, StateT.pure]

/-- Claim C10: the standalone entry points apply none of the validator defaults: HOTPCode with digit count 0 reaches the modulo-by-zero (none, the
modelled Go panic) rather than falling back to six digits, TOTPCode with
step size 0 reaches the division-by-zero in the time-step computation
(none) rather than falling back to 30 seconds, while ValidateTOTPCode with
unset hash, digits and step size substitutes the defaults and always
produces a result. -/
theorem standalone_no_defaults :
    (∀ hp key value, HOTPCode hp key 0 value = none) ∧
    (∀ hp key digits t, TOTPCode hp key digits 0 t = none) ∧
    (∀ key pt ft lastT now code,
      (ValidateTOTPCode ⟨key, 0, pt, ft, lastT, none, 0⟩ now code).isSome) := by
  refine ⟨fun hp key value => ?_, fun hp key digits t => ?_,
    fun key pt ft lastT now code => ?_⟩
  · simp only [HOTPCode]
    cases h : (hmacDigest hp key (int64BE value)).getLast? with
    | none => rfl
    | some lb =>
      simp only [h]
      split <;> simp
  · rfl
  · rw [ValidateTOTPCode_eq]
    have hgen : ∀ u, (genOf ⟨key, 0, pt, ft, lastT, none, 0⟩ u).isSome :=
      genOf_isSome sha1Hash_len20
    have hs := @validateLoop_isSome (genOf ⟨key, 0, pt, ft, lastT, none, 0⟩)
      (TOTPValidator.mk key 0 pt ft lastT none 0).LastT code hgen
      ((windowMax ⟨key, 0, pt, ft, lastT, none, 0⟩ now + 1 -
        windowMin ⟨key, 0, pt, ft, lastT, none, 0⟩ now).toNat)
      (windowMin ⟨key, 0, pt, ft, lastT, none, 0⟩ now)
    obtain ⟨o, ho⟩ := Option.isSome_iff_exists.mp hs
    simp only [ho]
    cases o <;> rfl

/-- Witness for claim C1 at the RFC secret, SHA-1 and counter 1. -/
theorem hotp_follows_rfc4226_witness :
    HOTPCode sha1Hash rfcKey SixDigits 1 =
      some ((specGenerateCode sha1Hash rfcKey SixDigits 1 : Nat) : Int) :=
  hotp_follows_rfc4226 sha1Hash_len20 sha1Hash_bytes rfcKey (by decide) 1

set_option maxRecDepth 100000 in
/-- Witness for claim C2: the RFC validator accepts the time-59 code at
counter 1, which indeed lies above its floor 0. -/
theorem validate_never_accepts_floor_witness :
    ValidateTOTPCode rfcValidator 59000000000 94287082 = some (true, 1) ∧
      rfcValidator.LastT < 1 :=
  ⟨by decide,
   validate_never_accepts_floor rfcValidator 59000000000 94287082 1 (by decide)⟩

set_option maxRecDepth 100000 in
/-- Witness for claim C3: the characterization instantiated at the RFC
vector: counter 1 is in the window, above the floor, generates the
candidate code, and no earlier window counter exists. -/
theorem validate_true_iff_witness :
    ValidateTOTPCode rfcValidator 59000000000 94287082 = some (true, 1) :=
  (validate_true_iff rfcValidator 59000000000 94287082 1 sha1Hash_len20).mpr
    ⟨by decide, by decide, by decide, by decide,
     fun u hu1 hu2 hu3 => by
       have hw : windowMin rfcValidator 59000000000 = 1 := by decide
       rw [hw] at hu1
       exact absurd (lt_of_le_of_lt hu1 hu2) (lt_irrefl 1)⟩

set_option maxRecDepth 100000 in
/-- Witness for claim C4 (amended): after the accepted counter 1 becomes
the floor and no later window counter matches, revalidation fails. -/
theorem validate_no_reuse_amended_witness :
    ValidateTOTPCode (advanceFloor rfcValidator 1) 59000000000 94287082 =
      some (false, currentStep rfcValidator 59000000000) :=
  (validate_no_reuse_amended rfcValidator 59000000000 94287082 1 sha1Hash_len20
    (by decide)).2
    (fun u hu1 hu2 => by
      have hw : windowMax rfcValidator 59000000000 = 1 := by decide
      rw [hw] at hu2
      exact absurd (lt_of_lt_of_le hu1 hu2) (lt_irrefl 1))

/-- Witness for claim C5 at the RFC secret, SHA-1, SixDigits, counter 0. -/
theorem hotp_range_witness :
    ∃ r, HOTPCode sha1Hash rfcKey SixDigits 0 = some r ∧ 0 ≤ r ∧
      r < (SixDigits : Int) :=
  hotp_range sha1Hash_len20 rfcKey (by decide) 0

/-- Witness for claim C6: a negative future tolerance empties the window
(windowMax = 0 < 1 = windowMin), so validation fails with the current
counter. -/
theorem validate_no_match_false_witness :
    ValidateTOTPCode ⟨rfcKey, 0, 0, -30000000000, 0, none, EightDigits⟩
        59000000000 94287082 =
      some (false,
        currentStep ⟨rfcKey, 0, 0, -30000000000, 0, none, EightDigits⟩
          59000000000) :=
  validate_no_match_false ⟨rfcKey, 0, 0, -30000000000, 0, none, EightDigits⟩
    59000000000 94287082 sha1Hash_len20
    (fun u hu1 hu2 hu3 => by
      have h1 : windowMin ⟨rfcKey, 0, 0, -30000000000, 0, none, EightDigits⟩
          59000000000 = 1 := by decide
      have h2 : windowMax ⟨rfcKey, 0, 0, -30000000000, 0, none, EightDigits⟩
          59000000000 = 0 := by decide
      rw [h1] at hu1
      rw [h2] at hu2
      exact absurd (le_trans hu1 hu2) (by decide))

/-- Witness for claim C7: a fully-unset validator equals, call for call,
its three explicitly-defaulted variants. -/
theorem validate_defaults_witness :
    (ValidateTOTPCode ⟨rfcKey, 0, 0, 0, 0, none, 0⟩ 59000000000 94287082 =
      ValidateTOTPCode (setHashProvider ⟨rfcKey, 0, 0, 0, 0, none, 0⟩ sha1Hash)
        59000000000 94287082) ∧
    (ValidateTOTPCode ⟨rfcKey, 0, 0, 0, 0, none, 0⟩ 59000000000 94287082 =
      ValidateTOTPCode (setDigits ⟨rfcKey, 0, 0, 0, 0, none, 0⟩ SixDigits)
        59000000000 94287082) ∧
    (ValidateTOTPCode ⟨rfcKey, 0, 0, 0, 0, none, 0⟩ 59000000000 94287082 =
      ValidateTOTPCode (setStepSize ⟨rfcKey, 0, 0, 0, 0, none, 0⟩
        DefaultStepSizeSeconds) 59000000000 94287082) :=
  ⟨(validate_defaults ⟨rfcKey, 0, 0, 0, 0, none, 0⟩ 59000000000 94287082).1 rfl,
   (validate_defaults ⟨rfcKey, 0, 0, 0, 0, none, 0⟩ 59000000000 94287082).2.1 rfl,
   (validate_defaults ⟨rfcKey, 0, 0, 0, 0, none, 0⟩ 59000000000 94287082).2.2 rfl⟩

/-- Witness for claim C8 at a pre-epoch instant: 59 seconds before the
epoch truncates toward zero to counter -1 (floor division would give -2). -/
theorem timeSteps_truncates_toward_zero_witness :
    timeSteps 30 (-59000000000) =
      some ((unixSeconds (-59000000000)).sign *
        (((unixSeconds (-59000000000)).natAbs / (30 : Int).natAbs : Nat) : Int)) :=
  timeSteps_truncates_toward_zero 30 (-59000000000) (by decide)

end OTP
